import Mathlib

/-!
Verification of the CIF parsing and validation engine of the `diffraction`
repository (`diffraction/cif.py`).

The Python module is shallowly embedded here:

* each compiled regular expression of the module (`COMMENT_OR_BLANK`,
  `DATA_BLOCK_HEADING`, `LOOP`, `DATA_NAME`, `DATA_NAME_START_LINE`,
  `DATA_VALUE`, `TEXT_FIELD`, `SEMICOLON_DATA_ITEM`, `INLINE_DATA_ITEM`)
  becomes an executable matcher/scanner on `List Char`, implementing the
  anchored-match, `findall`, `split` and `sub` semantics that the module
  actually uses for that pattern;
* `CIFValidator` becomes a fuel-indexed state machine over the list of
  lines, returning `none` when the fuel runs out (the Python loop did not
  terminate within that many top-level iterations) and `some` of an
  outcome (success, `CIFParseError` with message / line number / line
  text, or an escaping `IndexError`) otherwise;
* `DataBlock` / `CIFParser.parse` / `load_cif` become pure functions from
  the raw file string to the extracted block structure.

Python dictionaries (insertion ordered, assignment overwrites in place)
are modelled as association lists with an `dictInsert` operation that
replaces in place or appends.
-/

namespace DiffractionCif

/-- Python's `\s` character class (ASCII): space, tab, newline, carriage
return, vertical tab, form feed. -/
def isPySpace (c : Char) : Bool :=
  c = ' ' || c = '\t' || c = '\n' || c = '\r' || c = '\x0b' || c = '\x0c'

/-- Python's `\w` character class (ASCII): letters, digits, underscore. -/
def isPyWord (c : Char) : Bool :=
  c.isAlphanum || c = '_'

/-- The single-quote character. -/
def squote : Char := Char.ofNat 39

/-- The double-quote character. -/
def dquote : Char := Char.ofNat 34

/-- A one-character string holding a single quote. -/
def squoteS : String := String.singleton squote

/-- Case-insensitive match of an ASCII literal against the front of a
list, as `re.IGNORECASE` does for the `loop_` and `data_` literals.
Returns the remainder after the literal when it matches. -/
def ciLit : List Char → List Char → Option (List Char)
  | [], l => some l
  | _ :: _, [] => none
  | p :: ps, c :: cs => if c.toLower = p.toLower then ciLit ps cs else none

/-- `COMMENT_OR_BLANK = re.compile("\w*#.*|\s+$|^$")`, used via `.match`
on a single line.  The first alternative succeeds exactly when the line
consists of zero or more word characters directly followed by a hash
(backtracking over `\w*` cannot help because a hash is not a word
character, so the maximal word run must be followed by the hash); the
other two alternatives succeed exactly when the line is empty or all
whitespace (a line never contains a newline, so `$` is the end). -/
def commentOrBlankL (l : List Char) : Bool :=
  (match l.dropWhile isPyWord with
   | '#' :: _ => true
   | _ => false)
  || l.all isPySpace

/-- `DATA_BLOCK_HEADING = re.compile("(?:^|\n)(data_\S*)\s*", re.IGNORECASE)`
used via `.match` on a single line: the line must start with `data_`
(case-insensitively); `\S*` and `\s*` always succeed. -/
def headingMatchL (l : List Char) : Bool :=
  (ciLit ['d', 'a', 't', 'a', '_'] l).isSome

/-- `LOOP = re.compile("(?:^|\n)loop_\s*", re.IGNORECASE)` used via
`.match` on a single line: the line must start with `loop_`
(case-insensitively). -/
def loopMatchL (l : List Char) : Bool :=
  (ciLit ['l', 'o', 'o', 'p', '_'] l).isSome

/-- `DATA_NAME = re.compile("\s*_(\S+)")` used via `.match` on a single
line: optional whitespace, an underscore, then at least one non-space
character.  Returns the captured name (the maximal `\S+` run). -/
def dataNameCaptureL (l : List Char) : Option (List Char) :=
  match l.dropWhile isPySpace with
  | '_' :: t =>
    match t.takeWhile (fun c => !isPySpace c) with
    | [] => none
    | name => some name
  | _ => none

/-- Whether `DATA_NAME.match(line)` succeeds. -/
def dataNameMatchL (l : List Char) : Bool :=
  (dataNameCaptureL l).isSome

/-- `TEXT_FIELD = re.compile("[^_][^;]+")` used via `.match` on a single
line: the first character is not an underscore and the second character
is not a semicolon (at least two characters are required; `.match` does
not need to reach the end of the line). -/
def textFieldMatchL (l : List Char) : Bool :=
  match l with
  | a :: b :: _ => a ≠ '_' && b ≠ ';'
  | _ => false

/-- The value alternation of
`DATA_VALUE = re.compile("\s*(\'[^\']+\'|\"[^\"]+\"|[^\s_#][^\s\'\"]*)")`
tried at a position where `\s*` has already been consumed.  The regex
engine tries the single-quoted form, then the double-quoted form, then
the bare form; a quote character that fails its quoted form still
satisfies the bare form `[^\s_#][^\s'"]*`.  Returns the captured token
(quotes included, exactly as `findall` captures it) together with the
remainder of the input after the match. -/
def altToken (l : List Char) : Option (List Char × List Char) :=
  match l with
  | [] => none
  | c :: t =>
    if c = squote then
      let inner := t.takeWhile (fun d => d ≠ squote)
      match inner, t.drop inner.length with
      | _ :: _, q :: rest =>
        if q = squote then some (c :: (inner ++ [q]), rest) else bare c t
      | _, _ => bare c t
    else if c = dquote then
      let inner := t.takeWhile (fun d => d ≠ dquote)
      match inner, t.drop inner.length with
      | _ :: _, q :: rest =>
        if q = dquote then some (c :: (inner ++ [q]), rest) else bare c t
      | _, _ => bare c t
    else bare c t
where
  /-- The bare alternative `[^\s_#][^\s'"]*`. -/
  bare (c : Char) (t : List Char) : Option (List Char × List Char) :=
    if isPySpace c || c = '_' || c = '#' then none
    else
      let run := t.takeWhile (fun d => !isPySpace d && d ≠ squote && d ≠ dquote)
      some (c :: run, t.drop run.length)

/-- `DATA_VALUE.match(s)`: `\s*` absorbs leading whitespace and then the
alternation must match. -/
def dataValueMatchL (l : List Char) : Bool :=
  (altToken (l.dropWhile isPySpace)).isSome

/-- One attempt of `DATA_VALUE` at a fixed position, as performed when
`findall` scans a line: `\s*` then the alternation. -/
def dvTryAt (l : List Char) : Option (List Char × List Char) :=
  altToken (l.dropWhile isPySpace)

/-- `DATA_VALUE.findall(line)`: repeatedly try the pattern at the current
position; on success record the captured token and resume after the
match, on failure advance one character.  The fuel argument is the
length of the list, which bounds the number of scan steps. -/
def dvFindAllAux : Nat → List Char → List (List Char)
  | 0, _ => []
  | _, [] => []
  | fuel + 1, l@(_ :: t) =>
    match dvTryAt l with
    | some (tok, rest) => tok :: dvFindAllAux fuel rest
    | none => dvFindAllAux fuel t

/-- `DATA_VALUE.findall` on a string. -/
def dvFindAll (s : String) : List String :=
  (dvFindAllAux s.data.length s.data).map (fun l => ⟨l⟩)

/-- `INLINE_DATA_ITEM.match(line)` where
`INLINE_DATA_ITEM = re.compile("(?:^|\n)\s*_(\S+)[^\S\n]+\s*(...)")`
with the `DATA_VALUE` alternation as the second group: leading
whitespace, an underscore, a maximal nonempty `\S+` name, at least one
non-newline whitespace character, further whitespace, then the value
alternation.  (On a single line the `^` branch of `(?:^|\n)` applies.) -/
def inlineItemMatchL (l : List Char) : Bool :=
  match l.dropWhile isPySpace with
  | '_' :: t =>
    let name := t.takeWhile (fun c => !isPySpace c)
    match name, t.drop name.length with
    | _ :: _, w :: rest =>
      -- `[^\S\n]+` needs its first character to be whitespace other
      -- than a newline; the rest of the whitespace is absorbed by the
      -- greedy `[^\S\n]+\s*` combination.
      isPySpace w && w ≠ '\n' &&
        (altToken ((w :: rest).dropWhile isPySpace)).isSome
    | _, _ => false
  | _ => false

/-- String versions of the line matchers. -/
def commentOrBlank (s : String) : Bool := commentOrBlankL s.data

/-- `DATA_BLOCK_HEADING.match` on a string line. -/
def headingMatch (s : String) : Bool := headingMatchL s.data

/-- `LOOP.match` on a string line. -/
def loopMatch (s : String) : Bool := loopMatchL s.data

/-- `DATA_NAME.match` success on a string line. -/
def dataNameMatch (s : String) : Bool := dataNameMatchL s.data

/-- `DATA_VALUE.match` success on a string. -/
def dataValueMatch (s : String) : Bool := dataValueMatchL s.data

/-- `TEXT_FIELD.match` success on a string line. -/
def textFieldMatch (s : String) : Bool := textFieldMatchL s.data

/-- `INLINE_DATA_ITEM.match` success on a string line. -/
def inlineItemMatch (s : String) : Bool := inlineItemMatchL s.data

/-- Python's `str.lstrip()` (whitespace default). -/
def lstripStr (s : String) : String := ⟨s.data.dropWhile isPySpace⟩

/-- Python's `line.startswith(";")`. -/
def startsWithSemi (s : String) : Bool :=
  match s.data with
  | c :: _ => c = ';'
  | [] => false

/-- Python's `raw_data.split("\n")` on a list of characters.  The result
is never empty; an empty input yields one empty line. -/
def splitOnNl : List Char → List (List Char)
  | [] => [[]]
  | c :: t =>
    if c = '\n' then [] :: splitOnNl t
    else
      match splitOnNl t with
      | h :: r => (c :: h) :: r
      | [] => [[c]]

/-- `raw_data.split("\n")` on a string. -/
def splitLines (s : String) : List String :=
  (splitOnNl s.data).map (fun l => ⟨l⟩)

/-- Python's `"\n".join(lines)`. -/
def joinNl (lines : List (List Char)) : List Char :=
  match lines with
  | [] => []
  | h :: t => h ++ (t.map (fun l => '\n' :: l)).flatten

/-- One attempt of `DATA_NAME_START_LINE = re.compile("(?:^|\n)\s*_(\S+)")`
at a position where `^` or a consumed `\n` already holds: `\s*` (which
may span further newlines), an underscore, and a maximal nonempty name.
Returns the captured name and the remainder after the match. -/
def dnslTry (l : List Char) : Option (List Char × List Char) :=
  match l.dropWhile isPySpace with
  | '_' :: t =>
    match t.takeWhile (fun c => !isPySpace c) with
    | [] => none
    | name => some (name, t.drop name.length)
  | _ => none

/-- `DATA_NAME_START_LINE.findall(text)`: the first attempt is anchored
by `^`; every further attempt must consume a newline at the scan
position.  On failure the scan advances one character. -/
def dnslFindAllAux : Nat → Bool → List Char → List (List Char)
  | 0, _, _ => []
  | _, _, [] => []
  | fuel + 1, atStart, l@(c :: t) =>
    if atStart then
      match dnslTry l with
      | some (name, rest) => name :: dnslFindAllAux fuel false rest
      | none => dnslFindAllAux fuel false t
    else if c = '\n' then
      match dnslTry t with
      | some (name, rest) => name :: dnslFindAllAux fuel false rest
      | none => dnslFindAllAux fuel false t
    else dnslFindAllAux fuel false t

/-- `DATA_NAME_START_LINE.findall` on a string, capturing names. -/
def dnslFindAll (s : String) : List String :=
  (dnslFindAllAux s.data.length true s.data).map (fun l => ⟨l⟩)

/-- One attempt of the `LOOP` pattern `(?:^|\n)loop_\s*` at a position
where `^` or a consumed `\n` already holds: the literal (case
insensitive) followed by greedy `\s*`.  Returns the remainder after the
match. -/
def loopTry (l : List Char) : Option (List Char) :=
  (ciLit ['l', 'o', 'o', 'p', '_'] l).map (fun r => r.dropWhile isPySpace)

/-- `LOOP.split(text)`: the pieces of the text between non-overlapping
matches of the pattern, scanned left to right; an attempt at a non-start
position must consume a newline first. -/
def loopSplitAux : Nat → Bool → List Char → List (List Char)
  | 0, _, l => [l]
  | _, _, [] => [[]]
  | fuel + 1, atStart, l@(c :: t) =>
    match (if atStart then loopTry l else none) with
    | some rest => [] :: loopSplitAux fuel false rest
    | none =>
      match (if c = '\n' then loopTry t else none) with
      | some rest => [] :: loopSplitAux fuel false rest
      | none =>
        match loopSplitAux fuel false t with
        | h :: r => (c :: h) :: r
        | [] => [[c]]

/-- `LOOP.split` on a string. -/
def loopSplit (s : String) : List String :=
  (loopSplitAux s.data.length true s.data).map (fun l => ⟨l⟩)

/-- One attempt of `DATA_BLOCK_HEADING` (`(?:^|\n)(data_\S*)\s*`) at a
position where `^` or a consumed `\n` already holds: the literal `data_`
(case-insensitively, captured with its original characters), the greedy
`\S*` tail of the capture, then greedy `\s*`.  Returns the capture and
the remainder after the match. -/
def headingTry (l : List Char) : Option (List Char × List Char) :=
  match ciLit ['d', 'a', 't', 'a', '_'] l with
  | none => none
  | some r =>
    let tail := r.takeWhile (fun c => !isPySpace c)
    some (l.take 5 ++ tail, (r.drop tail.length).dropWhile isPySpace)

/-- `DATA_BLOCK_HEADING.split(text)` followed by the pairing done by
`CIFParser._extract_data_blocks`: the piece before the first match is
dropped and the result is the list of (captured header, following
piece) pairs. -/
def headingSplitAux : Nat → Bool → List Char → List Char × List (List Char × List Char)
  | 0, _, l => (l, [])
  | _, _, [] => ([], [])
  | fuel + 1, atStart, l@(c :: t) =>
    match (if atStart then headingTry l else none) with
    | some (cap, rest) =>
      let (piece, pairs) := headingSplitAux fuel false rest
      ([], (cap, piece) :: pairs)
    | none =>
      match (if c = '\n' then headingTry t else none) with
      | some (cap, rest) =>
        let (piece, pairs) := headingSplitAux fuel false rest
        ([], (cap, piece) :: pairs)
      | none =>
        let (piece, pairs) := headingSplitAux fuel false t
        (c :: piece, pairs)

/-- The (header, body) pairs produced by `_extract_data_blocks`. -/
def headingSplitPairs (s : String) : List (String × String) :=
  (headingSplitAux s.data.length true s.data).2.map
    (fun p => (⟨p.1⟩, ⟨p.2⟩))

/-- Split a text at the first occurrence of the two-character sequence
`"\n;"`, returning the part before it and the part after it.  This is
the effective semantics of the greedy-with-backtracking content group
`((?:.(?<!\n;))*)\n;` of `SEMICOLON_DATA_ITEM` under `re.DOTALL`. -/
def splitAtNlSemi : List Char → Option (List Char × List Char)
  | [] => none
  | ['\n'] => none
  | '\n' :: ';' :: t => some ([], t)
  | c :: t =>
    match splitAtNlSemi t with
    | some (a, b) => some (c :: a, b)
    | none => none

/-- One attempt of `SEMICOLON_DATA_ITEM`
(`(?:^|\n)\s*_(\S+)\n;\n((?:.(?<!\n;))*)\n;` with `re.DOTALL`) at a
position where `^` or a consumed `\n` already holds: whitespace, an
underscore, a maximal nonempty name followed directly by a newline, a
line holding exactly a semicolon, then the content up to the first
later line that starts with a semicolon.  Returns ((name, content),
remainder-after-the-closing-semicolon). -/
def semiTry (l : List Char) : Option ((List Char × List Char) × List Char) :=
  match l.dropWhile isPySpace with
  | '_' :: t =>
    let name := t.takeWhile (fun c => !isPySpace c)
    match name, t.drop name.length with
    | _ :: _, '\n' :: ';' :: '\n' :: body =>
      match splitAtNlSemi body with
      | some (content, rest) => some ((name, content), rest)
      | none => none
    | _, _ => none
  | _ => none

/-- The combined `findall`/`sub` scan of `SEMICOLON_DATA_ITEM` over a
text: returns the captured (name, content) pairs of all non-overlapping
matches, and the text with the matched spans removed. -/
def semiScanAux : Nat → Bool → List Char →
    List (List Char × List Char) × List Char
  | 0, _, l => ([], l)
  | _, _, [] => ([], [])
  | fuel + 1, atStart, l@(c :: t) =>
    match (if atStart then semiTry l else none) with
    | some (pair, rest) =>
      let (ps, res) := semiScanAux fuel false rest
      (pair :: ps, res)
    | none =>
      match (if c = '\n' then semiTry t else none) with
      | some (pair, rest) =>
        let (ps, res) := semiScanAux fuel false rest
        (pair :: ps, res)
      | none =>
        let (ps, res) := semiScanAux fuel false t
        (ps, c :: res)

/-- `SEMICOLON_DATA_ITEM` scan on a string. -/
def semiScan (s : String) : List (String × String) × String :=
  let (ps, res) := semiScanAux s.data.length true s.data
  (ps.map (fun p => (⟨p.1⟩, ⟨p.2⟩)), ⟨res⟩)

/-- One attempt of `INLINE_DATA_ITEM`
(`(?:^|\n)\s*_(\S+)[^\S\n]+\s*(value-alternation)`) at a position where
`^` or a consumed `\n` already holds.  Returns ((name, value token),
remainder after the match). -/
def inlineTry (l : List Char) : Option ((List Char × List Char) × List Char) :=
  match l.dropWhile isPySpace with
  | '_' :: t =>
    let name := t.takeWhile (fun c => !isPySpace c)
    match name, t.drop name.length with
    | _ :: _, w :: rest =>
      if isPySpace w && w ≠ '\n' then
        match altToken ((w :: rest).dropWhile isPySpace) with
        | some (tok, rem) => some ((name, tok), rem)
        | none => none
      else none
    | _, _ => none
  | _ => none

/-- The combined `findall`/`sub` scan of `INLINE_DATA_ITEM` over a text:
captured (name, value) pairs of all non-overlapping matches, and the
text with the matched spans removed. -/
def inlineScanAux : Nat → Bool → List Char →
    List (List Char × List Char) × List Char
  | 0, _, l => ([], l)
  | _, _, [] => ([], [])
  | fuel + 1, atStart, l@(c :: t) =>
    match (if atStart then inlineTry l else none) with
    | some (pair, rest) =>
      let (ps, res) := inlineScanAux fuel false rest
      (pair :: ps, res)
    | none =>
      match (if c = '\n' then inlineTry t else none) with
      | some (pair, rest) =>
        let (ps, res) := inlineScanAux fuel false rest
        (pair :: ps, res)
      | none =>
        let (ps, res) := inlineScanAux fuel false t
        (ps, c :: res)

/-- `INLINE_DATA_ITEM` scan on a string. -/
def inlineScan (s : String) : List (String × String) × String :=
  let (ps, res) := inlineScanAux s.data.length true s.data
  (ps.map (fun p => (⟨p.1⟩, ⟨p.2⟩)), ⟨res⟩)

/-! ## The validator (`CIFValidator`) -/

/-- The validator state: the current line, the lines still to be read by
the generator, and the 1-based number of the current line. -/
structure VState where
  current : String
  rest : List String
  lineNo : Nat
deriving Repr, DecidableEq

/-- The observable outcome of `CIFValidator.validate()`: it returned
`True`; it raised `CIFParseError` with a message, a line number and the
offending line; or an `IndexError` escaped (from `previous_lines[1]` on
a deque holding fewer than two entries). -/
inductive VOut where
  | ok : VOut
  | parseError (msg : String) (lineNo : Nat) (line : String) : VOut
  | indexError : VOut
deriving Repr, DecidableEq

/-- `CIFValidator._next_line()`: `none` models a `StopIteration`. -/
def nextLineV (st : VState) : Option VState :=
  match st.rest with
  | [] => none
  | l :: t => some ⟨l, t, st.lineNo + 1⟩

/-- `CIFValidator._is_valid_single_line()`. -/
def isValidSingleLine (l : String) : Bool :=
  commentOrBlank l || inlineItemMatch l || headingMatch l

/-- `CIFValidator._is_loop_data_values()`. -/
def isLoopDataValues (l : String) : Bool :=
  dataValueMatch l && !loopMatch l && !headingMatch l

/-- Append to the `deque(maxlen=2)` of remembered (line number, line)
pairs: when the deque is full the oldest entry is dropped. -/
def push2 (d : List (Nat × String)) (x : Nat × String) : List (Nat × String) :=
  match d with
  | [] => [x]
  | [a] => [a, x]
  | _ :: b :: _ => [b, x]

/-- The body loop of `CIFValidator._get_loop_data_names()`: a comment or
blank line is skipped; a line matching `DATA_NAME` contributes its
captured name; any other line ends the collection.  A `StopIteration`
raised by `_next_line` propagates to `validate`, which returns `True`
(`VOut.ok`). -/
def loopNamesScan (acc : List String) (cur : String) :
    List String → Nat → Except VOut (List String × VState)
  | [], n =>
    if commentOrBlank cur then .error .ok
    else if dataNameMatch cur then .error .ok
    else .ok (acc, ⟨cur, [], n⟩)
  | l :: t, n =>
    if commentOrBlank cur then loopNamesScan acc l t (n + 1)
    else if dataNameMatch cur then
      loopNamesScan (acc ++ [⟨(dataNameCaptureL cur.data).getD []⟩]) l t (n + 1)
    else .ok (acc, ⟨cur, l :: t, n⟩)

/-- The value-row loop of `CIFValidator._validate_loop()`: comments and
blanks are skipped; a line matching `_is_loop_data_values` must tokenize
into exactly as many `DATA_VALUE` captures as there are declared names,
otherwise `CIFParseError` is raised at that line; any other line ends
the loop with the state unchanged. -/
def loopValuesScan (names : List String) (cur : String) :
    List String → Nat → Except VOut VState
  | [], n =>
    if commentOrBlank cur then .error .ok
    else if isLoopDataValues cur then
      if (dvFindAll cur).length ≠ names.length then
        .error (.parseError "Unmatched data values to data names in loop" n cur)
      else .error .ok
    else .ok ⟨cur, [], n⟩
  | l :: t, n =>
    if commentOrBlank cur then loopValuesScan names l t (n + 1)
    else if isLoopDataValues cur then
      if (dvFindAll cur).length ≠ names.length then
        .error (.parseError "Unmatched data values to data names in loop" n cur)
      else loopValuesScan names l t (n + 1)
    else .ok ⟨cur, l :: t, n⟩

/-- `CIFValidator._validate_loop()`: collect the declared names (the
collection starts by advancing one line past the `loop_` line), then
check the value rows. -/
def validateLoop (st : VState) : Except VOut VState :=
  match nextLineV st with
  | none => .error .ok
  | some st2 =>
    match loopNamesScan [] st2.current st2.rest st2.lineNo with
    | .error o => .error o
    | .ok (names, st3) => loopValuesScan names st3.current st3.rest st3.lineNo

/-- The body loop of `CIFValidator._validate_semicolon_data_item()`
after the opening semicolon line has been passed: each comment/blank or
`TEXT_FIELD` line is remembered in the two-entry deque and consumed
(reaching the end of input raises `CIFParseError` at the line just
remembered); any other line stops the loop, and then a line starting
with a semicolon closes the field while any other line triggers the
unclosed-field error at `previous_lines[1]` — an `IndexError` when the
deque holds fewer than two entries. -/
def semiFieldScan (d : List (Nat × String)) (cur : String) :
    List String → Nat → Except VOut VState
  | [], n =>
    if commentOrBlank cur || textFieldMatch cur then
      .error (.parseError "Unclosed semicolon text field" n cur)
    else if startsWithSemi cur then .error .ok
    else
      match d with
      | _ :: p :: _ => .error (.parseError "Unclosed semicolon text field" p.1 p.2)
      | _ => .error .indexError
  | l :: t, n =>
    if commentOrBlank cur || textFieldMatch cur then
      semiFieldScan (push2 d (n, cur)) l t (n + 1)
    else if startsWithSemi cur then .ok ⟨l, t, n + 1⟩
    else
      match d with
      | _ :: p :: _ => .error (.parseError "Unclosed semicolon text field" p.1 p.2)
      | _ => .error .indexError

/-- `CIFValidator._validate_semicolon_data_item()`: step past the
opening semicolon line (end of input here propagates `StopIteration` up
to `validate`, which returns `True`), then scan the field with an empty
deque. -/
def validateSemicolonDataItem (st : VState) : Except VOut VState :=
  match nextLineV st with
  | none => .error .ok
  | some st2 => semiFieldScan [] st2.current st2.rest st2.lineNo

/-- `CIFValidator._validate_lone_data_name()`: remember the name line,
read the next line (end of input means `CIFParseError` at the name
line); a next line starting with a semicolon hands over to the
semicolon-field validation, anything else is a `CIFParseError` at the
original name line. -/
def validateLoneDataName (st : VState) : Except VOut VState :=
  match nextLineV st with
  | none => .error (.parseError "Invalid inline data value" st.lineNo st.current)
  | some st2 =>
    if startsWithSemi st2.current then validateSemicolonDataItem st2
    else .error (.parseError "Invalid inline data value" st.lineNo st.current)

/-- `CIFValidator.validate()`: the top-level `while True` dispatch.  The
fuel counts top-level iterations; `none` means the Python loop ran that
many iterations without terminating.  A line matching none of the four
dispatch conditions leaves the state unchanged, which in Python is an
infinite loop. -/
def validateFrom : Nat → VState → Option VOut
  | 0, _ => none
  | fuel + 1, st =>
    if isValidSingleLine st.current then
      match nextLineV st with
      | none => some .ok
      | some st2 => validateFrom fuel st2
    else if loopMatch st.current then
      match validateLoop st with
      | .error o => some o
      | .ok st2 => validateFrom fuel st2
    else if dataValueMatch (lstripStr st.current) then
      some (.parseError "Missing inline data name" st.lineNo st.current)
    else if dataNameMatch st.current then
      match validateLoneDataName st with
      | .error o => some o
      | .ok st2 => validateFrom fuel st2
    else validateFrom fuel st

/-- The initial validator state on a raw input string
(`raw_data.split("\n")` is never empty, so the initialising `next`
always succeeds). -/
def initVState (raw : String) : VState :=
  match splitLines raw with
  | l :: t => ⟨l, t, 1⟩
  | [] => ⟨"", [], 1⟩

/-- `CIFValidator(raw).validate()` with the given iteration budget. -/
def validateCif (fuel : Nat) (raw : String) : Option VOut :=
  validateFrom fuel (initVState raw)

/-! ## The extraction pipeline (`DataBlock`, `CIFParser`, `load_cif`) -/

/-- A value stored in `DataBlock.data_items`: a scalar string, or a loop
table mapping column names to lists of values. -/
inductive CifValue where
  | scalar : String → CifValue
  | table : List (String × List String) → CifValue
deriving Repr, DecidableEq

/-- Assignment into a Python (insertion-ordered) dict: an existing key
keeps its position and gets the new value, a new key is appended.
(Python dict keys are unique, so replacing the first occurrence is the
same as replacing the occurrence.) -/
def dictInsert (d : List (String × CifValue)) (k : String) (v : CifValue) :
    List (String × CifValue) :=
  match d with
  | [] => [(k, v)]
  | p :: t => if p.1 = k then (k, v) :: t else p :: dictInsert t k v

/-- Lookup in the modelled dict. -/
def dictLookup (d : List (String × CifValue)) (k : String) : Option CifValue :=
  (d.find? (fun p => p.1 = k)).map (fun p => p.2)

/-- The `DataBlock` object: header, mutable raw body, and the
insertion-ordered `data_items` dict. -/
structure DataBlock where
  header : String
  raw_data : String
  data_items : List (String × CifValue)
deriving Repr, DecidableEq

/-- Which compiled pattern `DataBlock.extract_data_items` is called
with; the method special-cases the semicolon pattern by identity. -/
inductive ItemPat where
  | semicolonPat : ItemPat
  | inlinePat : ItemPat
deriving Repr, DecidableEq

/-- The per-value transform of `extract_data_items`: only for the
semicolon pattern the captured value is wrapped in single quotes
(`"'{}'".format(data_value)` in the source, written here without
braces). -/
def patTransform (p : ItemPat) (v : String) : String :=
  match p with
  | .semicolonPat => squoteS ++ v ++ squoteS
  | .inlinePat => v

/-- `findall` of the selected pattern on a text. -/
def patFindAll (p : ItemPat) (s : String) : List (String × String) :=
  match p with
  | .semicolonPat => (semiScan s).1
  | .inlinePat => (inlineScan s).1

/-- `pattern.sub("", text)` of the selected pattern. -/
def patSub (p : ItemPat) (s : String) : String :=
  match p with
  | .semicolonPat => (semiScan s).2
  | .inlinePat => (inlineScan s).2

/-- `DataBlock.extract_data_items(pattern)`: store every captured
(name, value) pair, quoting semicolon-field contents, then remove the
matched spans from `raw_data`. -/
def extract_data_items (p : ItemPat) (b : DataBlock) : DataBlock :=
  { b with
    data_items :=
      (patFindAll p b.raw_data).foldl
        (fun d q => dictInsert d q.1 (.scalar (patTransform p q.2))) b.data_items
    raw_data := patSub p b.raw_data }

/-- The `{data_name: [] for data_name in data_names}` comprehension:
duplicate names collapse onto the first occurrence. -/
def tableInitAux (acc : List (String × List String)) :
    List String → List (String × List String)
  | [] => acc
  | n :: ns =>
    if acc.any (fun p => p.1 = n) then tableInitAux acc ns
    else tableInitAux (acc ++ [(n, [])]) ns

/-- Initial loop table with one empty column per distinct name. -/
def tableInit (names : List String) : List (String × List String) :=
  tableInitAux [] names

/-- `loop_data_items[data_name].append(data_value)`: the (unique) entry
for the name gets the value appended to its list. -/
def tableAppend (t : List (String × List String)) (n : String) (v : String) :
    List (String × List String) :=
  match t with
  | [] => []
  | p :: r => if p.1 = n then (p.1, p.2 ++ [v]) :: r else p :: tableAppend r n v

/-- One value row of a loop: `zip(data_names, data_values)` (truncating
at the shorter list) followed by the per-pair appends. -/
def rowStep (t : List (String × List String)) (names values : List String) :
    List (String × List String) :=
  (names.zip values).foldl (fun t q => tableAppend t q.1 q.2) t

/-- The loop table built by the body of `extract_loop_data_items` for
one split-off loop text: names found by `DATA_NAME_START_LINE.findall`,
value lines obtained by dropping the first `len(data_names)` lines, and
one `DATA_VALUE.findall` tokenization per value line. -/
def buildLoopTable (loopText : String) : List (String × List String) :=
  let names := dnslFindAll loopText
  let valueLines := (splitLines loopText).drop names.length
  valueLines.foldl (fun t line => rowStep t names (dvFindAll line)) (tableInit names)

/-- `DataBlock.extract_loop_data_items()`: split the raw body at loop
markers, drop the text before the first marker, and store the i-th loop
table under the key `loop_⟨i+1⟩`.  The raw body is left unchanged. -/
def extract_loop_data_items (b : DataBlock) : DataBlock :=
  { b with
    data_items :=
      ((loopSplit b.raw_data).drop 1).enum.foldl
        (fun d q => dictInsert d ("loop_" ++ toString (q.1 + 1))
          (.table (buildLoopTable q.2)))
        b.data_items }

/-- `CIFParser._strip_comments_and_blank_lines()`. -/
def stripCommentsAndBlankLines (raw : String) : String :=
  ⟨joinNl (((splitOnNl raw.data).filter (fun l => !commentOrBlankL l)))⟩

/-- `CIFParser.parse()` run on raw file contents: strip comments and
blank lines, split into data blocks, then run the three extraction
passes on each block in order. -/
def parseCif (raw : String) : List DataBlock :=
  ((headingSplitPairs (stripCommentsAndBlankLines raw)).map
    (fun p => DataBlock.mk p.1 p.2 [])).map
    (fun b =>
      extract_loop_data_items
        (extract_data_items .inlinePat (extract_data_items .semicolonPat b)))

/-- `load_cif`: `CIFParser.__init__` validates the raw contents (any
exception escapes and no parse output is produced), then `parse` runs
and the per-block `(header, data_items)` pairs are returned.  `none`
models the validator failing to terminate within the fuel. -/
def load_cif (fuel : Nat) (raw : String) :
    Option (VOut ⊕ List (String × List (String × CifValue))) :=
  match validateCif fuel raw with
  | none => none
  | some .ok => some (.inr ((parseCif raw).map (fun b => (b.header, b.data_items))))
  | some o => some (.inl o)

/-- The guard of the semicolon-field loop: a line kept as field content
is a comment/blank line or a `TEXT_FIELD` match. -/
def contentLine (l : String) : Bool := commentOrBlank l || textFieldMatch l

/-! ## Helper lemmas -/

theorem push2_push2 (d : List (Nat × String)) (x y : Nat × String) :
    push2 (push2 d x) y = [x, y] := by
  match d with
  | [] => rfl
  | [a] => rfl
  | a :: b :: t => rfl

theorem semiFieldScan_contentRun (cs : List String) :
    ∀ (d : List (Nat × String)) (c : String) (n : Nat),
      contentLine c = true → (∀ l ∈ cs, contentLine l = true) →
      semiFieldScan d c cs n =
        .error (.parseError "Unclosed semicolon text field"
          (n + cs.length) (cs.getLastD c)) := by
  induction cs with
  | nil =>
    intro d c n hc _
    simp only [contentLine, Bool.or_eq_true] at hc
    simp [semiFieldScan, hc, List.getLastD]
  | cons l t ih =>
    intro d c n hc hcs
    have hc2 : (commentOrBlank c || textFieldMatch c) = true := hc
    have hl : contentLine l = true := hcs l (by simp)
    have ht : ∀ m ∈ t, contentLine m = true := fun m hm => hcs m (by simp [hm])
    calc semiFieldScan d c (l :: t) n
        = semiFieldScan (push2 d (n, c)) l t (n + 1) := by
          simp [semiFieldScan, hc2]
      _ = .error (.parseError "Unclosed semicolon text field"
            (n + 1 + t.length) (t.getLastD l)) := ih _ l (n + 1) hl ht
      _ = .error (.parseError "Unclosed semicolon text field"
            (n + (l :: t).length) ((l :: t).getLastD c)) := by
          rw [List.getLastD_cons]
          simp only [List.length_cons]
          congr 2
          omega

theorem semiFieldScan_breakRun (cs : List String) :
    ∀ (d : List (Nat × String)) (c b : String) (rest2 : List String) (n : Nat),
      contentLine c = true → (∀ l ∈ cs, contentLine l = true) →
      contentLine b = false → startsWithSemi b = false → cs ≠ [] →
      semiFieldScan d c (cs ++ b :: rest2) n =
        .error (.parseError "Unclosed semicolon text field"
          (n + cs.length) (cs.getLastD c)) := by
  induction cs with
  | nil => intro _ _ _ _ _ _ _ _ _ hne; exact absurd rfl hne
  | cons x t ih =>
    intro d c b rest2 n hc hcs hb hbs _
    have hc2 : (commentOrBlank c || textFieldMatch c) = true := hc
    have hx : contentLine x = true := hcs x (by simp)
    have hx2 : (commentOrBlank x || textFieldMatch x) = true := hx
    have ht : ∀ m ∈ t, contentLine m = true := fun m hm => hcs m (by simp [hm])
    match t with
    | [] =>
      have hb2 : (commentOrBlank b || textFieldMatch b) = false := hb
      have h1 : semiFieldScan d c ([x] ++ b :: rest2) n =
          semiFieldScan (push2 d (n, c)) x (b :: rest2) (n + 1) := by
        simp [semiFieldScan, hc2]
      have h2 : semiFieldScan (push2 d (n, c)) x (b :: rest2) (n + 1) =
          semiFieldScan (push2 (push2 d (n, c)) (n + 1, x)) b rest2 (n + 2) := by
        simp [semiFieldScan, hx2]
      rw [h1, h2, push2_push2]
      cases rest2 with
      | nil => simp [semiFieldScan, hb2, hbs, List.getLastD]
      | cons r rs => simp [semiFieldScan, hb2, hbs, List.getLastD]
    | y :: t2 =>
      have h1 : semiFieldScan d c ((x :: y :: t2) ++ b :: rest2) n =
          semiFieldScan (push2 d (n, c)) x ((y :: t2) ++ b :: rest2) (n + 1) := by
        simp [semiFieldScan, hc2]
      rw [h1, ih _ x b rest2 (n + 1) hx ht hb hbs (by simp)]
      simp only [List.getLastD_cons, List.length_cons]
      congr 2
      omega

theorem dictLookup_cons (p : String × CifValue) (t : List (String × CifValue))
    (k : String) :
    dictLookup (p :: t) k = if p.1 = k then some p.2 else dictLookup t k := by
  by_cases h : p.1 = k <;> simp [dictLookup, List.find?, h]

theorem dictLookup_insert_self (d : List (String × CifValue)) (k : String)
    (v : CifValue) : dictLookup (dictInsert d k v) k = some v := by
  induction d with
  | nil => simp [dictInsert, dictLookup_cons]
  | cons p t ih =>
    by_cases h : p.1 = k
    · simp [dictInsert, h, dictLookup_cons]
    · simp [dictInsert, h, dictLookup_cons, ih]

theorem dictLookup_insert_ne (d : List (String × CifValue)) (k k2 : String)
    (v : CifValue) (h : k2 ≠ k) :
    dictLookup (dictInsert d k v) k2 = dictLookup d k2 := by
  have hne : ¬ (k = k2) := fun hh => h hh.symm
  induction d with
  | nil => simp [dictInsert, dictLookup_cons, dictLookup, hne]
  | cons p t ih =>
    by_cases hp : p.1 = k
    · have hne2 : ¬ (p.1 = k2) := by rw [hp]; exact hne
      simp [dictInsert, hp, dictLookup_cons, hne, hne2]
    · simp [dictInsert, hp, dictLookup_cons, ih]

theorem dictLookup_foldl_insert_of_not_mem
    (ps : List (String × CifValue)) :
    ∀ (d : List (String × CifValue)) (k : String),
      (∀ p ∈ ps, p.1 ≠ k) →
      dictLookup (ps.foldl (fun d p => dictInsert d p.1 p.2) d) k = dictLookup d k := by
  induction ps with
  | nil => intro d k _; rfl
  | cons p t ih =>
    intro d k h
    have hp : p.1 ≠ k := h p (by simp)
    have ht : ∀ q ∈ t, q.1 ≠ k := fun q hq => h q (by simp [hq])
    calc dictLookup ((p :: t).foldl (fun d p => dictInsert d p.1 p.2) d) k
        = dictLookup (t.foldl (fun d p => dictInsert d p.1 p.2) (dictInsert d p.1 p.2)) k := rfl
      _ = dictLookup (dictInsert d p.1 p.2) k := ih _ k ht
      _ = dictLookup d k := dictLookup_insert_ne d p.1 k p.2 (fun hk => hp hk.symm)

theorem dictLookup_foldl_insert (ps : List (String × CifValue)) :
    ∀ (d : List (String × CifValue)) (k : String) (v : CifValue),
      (ps.map Prod.fst).Nodup → (k, v) ∈ ps →
      dictLookup (ps.foldl (fun d p => dictInsert d p.1 p.2) d) k = some v := by
  induction ps with
  | nil => intro _ _ _ _ hmem; cases hmem
  | cons p t ih =>
    intro d k v hnd hmem
    rw [List.map_cons, List.nodup_cons] at hnd
    rcases List.mem_cons.mp hmem with heq | hmem2
    · subst heq
      have ht : ∀ q ∈ t, q.1 ≠ (k, v).1 := by
        intro q hq hqk
        exact hnd.1 (hqk ▸ List.mem_map_of_mem Prod.fst hq)
      calc dictLookup (((k, v) :: t).foldl (fun d p => dictInsert d p.1 p.2) d) k
          = dictLookup (t.foldl (fun d p => dictInsert d p.1 p.2) (dictInsert d k v)) k := rfl
        _ = dictLookup (dictInsert d k v) k :=
            dictLookup_foldl_insert_of_not_mem t _ k ht
        _ = some v := dictLookup_insert_self d k v
    · exact ih _ k v hnd.2 hmem2

theorem tableInitAux_eq (names : List String) :
    ∀ acc : List (String × List String),
      (∀ n ∈ names, acc.any (fun p => p.1 = n) = false) → names.Nodup →
      tableInitAux acc names = acc ++ names.map (fun n => (n, ([] : List String))) := by
  induction names with
  | nil => intro acc _ _; simp [tableInitAux]
  | cons n ns ih =>
    intro acc h hnd
    rw [List.nodup_cons] at hnd
    have hn : acc.any (fun p => p.1 = n) = false := h n (by simp)
    have hstep : tableInitAux acc (n :: ns) = tableInitAux (acc ++ [(n, [])]) ns := by
      simp [tableInitAux, hn]
    rw [hstep, ih (acc ++ [(n, [])]) ?_ hnd.2]
    · simp
    · intro m hm
      have hms : acc.any (fun p => p.1 = m) = false := h m (by simp [hm])
      have hmn : m ≠ n := fun he => hnd.1 (he ▸ hm)
      simp only [List.any_append, Bool.or_eq_false_iff]
      refine ⟨hms, ?_⟩
      simp only [List.any_cons, List.any_nil, Bool.or_false, decide_eq_false_iff_not]
      exact fun he => hmn he.symm

theorem tableInit_eq (names : List String) (hnd : names.Nodup) :
    tableInit names = names.map (fun n => (n, ([] : List String))) := by
  have := tableInitAux_eq names [] (by intro n _; rfl) hnd
  simpa [tableInit] using this

theorem tableAppend_cons_ne (p : String × List String)
    (t : List (String × List String)) (n : String) (v : String) (h : p.1 ≠ n) :
    tableAppend (p :: t) n v = p :: tableAppend t n v := by
  simp [tableAppend, h]

theorem foldl_tableAppend_cons (ps : List (String × String)) :
    ∀ (q : String × List String) (t : List (String × List String)),
      (∀ r ∈ ps, r.1 ≠ q.1) →
      ps.foldl (fun acc r => tableAppend acc r.1 r.2) (q :: t) =
        q :: ps.foldl (fun acc r => tableAppend acc r.1 r.2) t := by
  induction ps with
  | nil => intro q t _; rfl
  | cons r rs ih =>
    intro q t h
    have hr : r.1 ≠ q.1 := h r (by simp)
    have hrs : ∀ s ∈ rs, s.1 ≠ q.1 := fun s hs => h s (by simp [hs])
    calc (r :: rs).foldl (fun acc r => tableAppend acc r.1 r.2) (q :: t)
        = rs.foldl (fun acc r => tableAppend acc r.1 r.2) (tableAppend (q :: t) r.1 r.2) := rfl
      _ = rs.foldl (fun acc r => tableAppend acc r.1 r.2) (q :: tableAppend t r.1 r.2) := by
          rw [tableAppend_cons_ne q t r.1 r.2 (fun he => hr he.symm)]
      _ = q :: rs.foldl (fun acc r => tableAppend acc r.1 r.2) (tableAppend t r.1 r.2) :=
          ih q _ hrs
      _ = q :: (r :: rs).foldl (fun acc r => tableAppend acc r.1 r.2) t := rfl

theorem rowStep_eq (t : List (String × List String)) :
    ∀ (names values : List String),
      t.map Prod.fst = names → names.Nodup → values.length = names.length →
      rowStep t names values =
        t.zipWith (fun p v => (p.1, p.2 ++ [v])) values := by
  induction t with
  | nil =>
    intro names values hk _ hlen
    have : names = [] := hk.symm
    subst this
    have : values = [] := List.length_eq_zero.mp hlen
    subst this
    rfl
  | cons p t2 ih =>
    intro names values hk hnd hlen
    rw [List.map_cons] at hk
    subst hk
    rw [List.nodup_cons] at hnd
    match values with
    | [] => simp at hlen
    | v :: vs =>
      have hlen2 : vs.length = (t2.map Prod.fst).length := by simpa using hlen
      have hstep : tableAppend (p :: t2) p.1 v = (p.1, p.2 ++ [v]) :: t2 := by
        simp [tableAppend]
      have hkeys : ∀ r ∈ (t2.map Prod.fst).zip vs, r.1 ≠ (p.1, p.2 ++ [v]).1 := by
        intro r hr he
        have : r.1 ∈ t2.map Prod.fst := (List.of_mem_zip hr).1
        rw [he] at this
        exact hnd.1 this
      calc rowStep (p :: t2) (p.1 :: t2.map Prod.fst) (v :: vs)
          = ((t2.map Prod.fst).zip vs).foldl (fun acc r => tableAppend acc r.1 r.2)
              (tableAppend (p :: t2) p.1 v) := by
            simp [rowStep, List.zip_cons_cons]
        _ = ((t2.map Prod.fst).zip vs).foldl (fun acc r => tableAppend acc r.1 r.2)
              ((p.1, p.2 ++ [v]) :: t2) := by rw [hstep]
        _ = (p.1, p.2 ++ [v]) :: ((t2.map Prod.fst).zip vs).foldl
              (fun acc r => tableAppend acc r.1 r.2) t2 :=
            foldl_tableAppend_cons _ _ _ hkeys
        _ = (p.1, p.2 ++ [v]) :: rowStep t2 (t2.map Prod.fst) vs := rfl
        _ = (p :: t2).zipWith (fun p v => (p.1, p.2 ++ [v])) (v :: vs) := by
            rw [ih (t2.map Prod.fst) vs rfl hnd.2 hlen2]
            rfl

theorem zipWithApp_keys (t : List (String × List String)) :
    ∀ values : List String, values.length = t.length →
      (t.zipWith (fun p v => (p.1, p.2 ++ [v])) values).map Prod.fst =
        t.map Prod.fst := by
  induction t with
  | nil => intro values _; simp
  | cons p t2 ih =>
    intro values hlen
    match values with
    | [] => simp at hlen
    | v :: vs =>
      have : vs.length = t2.length := by simpa using hlen
      simp [List.zipWith, ih vs this]

theorem zipWithApp_len (t : List (String × List String)) :
    ∀ (values : List String) (k : Nat), values.length = t.length →
      (∀ p ∈ t, p.2.length = k) →
      ∀ p ∈ t.zipWith (fun p v => (p.1, p.2 ++ [v])) values, p.2.length = k + 1 := by
  induction t with
  | nil => intro values k _ _ p hp; simp at hp
  | cons q t2 ih =>
    intro values k hlen hall p hp
    match values with
    | [] => simp at hlen
    | v :: vs =>
      have hlen2 : vs.length = t2.length := by simpa using hlen
      rcases List.mem_cons.mp hp with heq | hmem
      · subst heq
        simp [hall q (by simp)]
      · exact ih vs k hlen2 (fun r hr => hall r (by simp [hr])) p hmem

theorem foldl_rowStep_inv (rows : List String) :
    ∀ (names : List String) (t0 : List (String × List String)) (k : Nat),
      names.Nodup →
      (∀ l ∈ rows, (dvFindAll l).length = names.length) →
      t0.map Prod.fst = names → (∀ p ∈ t0, p.2.length = k) →
      (rows.foldl (fun t line => rowStep t names (dvFindAll line)) t0).map Prod.fst
          = names
      ∧ ∀ p ∈ rows.foldl (fun t line => rowStep t names (dvFindAll line)) t0,
          p.2.length = k + rows.length := by
  induction rows with
  | nil =>
    intro names t0 k _ _ hk hlen
    exact ⟨hk, by simpa using hlen⟩
  | cons r rs ih =>
    intro names t0 k hnd hrows hk hlen
    have hr : (dvFindAll r).length = names.length := hrows r (by simp)
    have hlen0 : (dvFindAll r).length = t0.length := by
      rw [hr, ← hk, List.length_map]
    have hstep : rowStep t0 names (dvFindAll r) =
        t0.zipWith (fun p v => (p.1, p.2 ++ [v])) (dvFindAll r) :=
      rowStep_eq t0 names (dvFindAll r) hk hnd hr
    have hk2 : (rowStep t0 names (dvFindAll r)).map Prod.fst = names := by
      rw [hstep, zipWithApp_keys t0 (dvFindAll r) hlen0, hk]
    have hlen2 : ∀ p ∈ rowStep t0 names (dvFindAll r), p.2.length = k + 1 := by
      rw [hstep]
      exact zipWithApp_len t0 (dvFindAll r) k hlen0 hlen
    have := ih names (rowStep t0 names (dvFindAll r)) (k + 1) hnd
      (fun l hl => hrows l (by simp [hl])) hk2 hlen2
    refine ⟨this.1, fun p hp => ?_⟩
    have := this.2 p hp
    simp only [List.length_cons]
    omega

theorem buildLoopTable_shape (loopText : String)
    (hnd : (dnslFindAll loopText).Nodup)
    (hrows : ∀ l ∈ (splitLines loopText).drop (dnslFindAll loopText).length,
        (dvFindAll l).length = (dnslFindAll loopText).length) :
    (buildLoopTable loopText).map Prod.fst = dnslFindAll loopText
    ∧ ∀ p ∈ buildLoopTable loopText,
        p.2.length =
          ((splitLines loopText).drop (dnslFindAll loopText).length).length := by
  have hinit : tableInit (dnslFindAll loopText) =
      (dnslFindAll loopText).map (fun n => (n, ([] : List String))) :=
    tableInit_eq _ hnd
  have hk : (tableInit (dnslFindAll loopText)).map Prod.fst = dnslFindAll loopText := by
    rw [hinit, List.map_map]
    have hcomp : (Prod.fst ∘ fun n : String => (n, ([] : List String))) = id := rfl
    rw [hcomp, List.map_id]
  have hlen : ∀ p ∈ tableInit (dnslFindAll loopText), p.2.length = 0 := by
    rw [hinit]
    intro p hp
    rcases List.mem_map.mp hp with ⟨n, _, rfl⟩
    rfl
  have := foldl_rowStep_inv
    ((splitLines loopText).drop (dnslFindAll loopText).length)
    (dnslFindAll loopText) (tableInit (dnslFindAll loopText)) 0 hnd hrows hk hlen
  refine ⟨this.1, fun p hp => ?_⟩
  have := this.2 p hp
  omega

/-! ## Claim theorems -/

/-- C1: the claim states that `CIFValidator.validate()` terminates on
every input, either returning `True` or raising at the first violation.
The code violates this: a line matching none of the four dispatch
conditions (for example a file consisting of the single character `_`,
or an indented comment line) leaves the `while True` body with nothing
to do, so the loop spins forever without consuming a line.  This
theorem shows that on the input `_` the validator reaches no outcome
under any iteration budget. -/
theorem validate_diverges_on_lone_underscore :
    ∀ fuel : Nat, validateCif fuel "_" = none := by
  intro fuel
  induction fuel with
  | zero => rfl
  | succ n ih =>
    have hstep : validateCif (n + 1) "_" = validateCif n "_" := rfl
    rw [hstep, ih]

/-- C9: the claim states that `validate()` only ever returns `True` or
raises `CIFParseError`, the two-line lookback buffer being indexable at
position 1 whenever the unclosed-field error branch reads it.  The code
violates this: on the input `_a\n;\n_b` the semicolon field is entered
and immediately broken by the bare name line, the deque is still empty,
and `previous_lines[1]` raises an `IndexError` that escapes. -/
theorem validator_index_error_escape :
    validateCif 10 "_a\n;\n_b" = some .indexError := rfl

/-- C6: at top level, a line that is no comment/blank line, no inline
item, no block heading, no loop marker and no data name, but whose
left-stripped text matches the `DATA_VALUE` pattern, makes `validate()`
raise `Missing inline data name` carrying that line's own number and
text. -/
theorem missing_inline_data_name_dispatch (fuel : Nat) (st : VState)
    (h1 : commentOrBlank st.current = false)
    (h2 : inlineItemMatch st.current = false)
    (h3 : headingMatch st.current = false)
    (h4 : loopMatch st.current = false)
    (h5 : dataNameMatch st.current = false)
    (h6 : dataValueMatch (lstripStr st.current) = true) :
    validateFrom (fuel + 1) st =
      some (.parseError "Missing inline data name" st.lineNo st.current) := by
  obtain ⟨cur, rest, n⟩ := st
  simp only at h1 h2 h3 h4 h5 h6
  simp [validateFrom, isValidSingleLine, h1, h2, h3, h4, h6]

/-- Witness for C6: a lone bare value on line 3 is reported there. -/
theorem missing_inline_data_name_dispatch_witness :
    validateFrom 1 ⟨"lone_value", [], 3⟩ =
      some (.parseError "Missing inline data name" 3 "lone_value") :=
  missing_inline_data_name_dispatch 0 ⟨"lone_value", [], 3⟩ rfl rfl rfl rfl rfl rfl

/-- C5: at top level, on a bare data-name line (matched by `DATA_NAME`
but by none of the earlier dispatch conditions): with no next line,
`validate()` raises `Invalid inline data value` at the name line; with
a next line starting with a semicolon, validation continues inside the
semicolon field (whatever outcome that validation produces); otherwise
it raises `Invalid inline data value` at the original name line, not at
the following line. -/
theorem lone_data_name_dispatch (fuel : Nat) (st : VState)
    (h1 : isValidSingleLine st.current = false)
    (h2 : loopMatch st.current = false)
    (h3 : dataValueMatch (lstripStr st.current) = false)
    (h4 : dataNameMatch st.current = true) :
    (st.rest = [] →
      validateFrom (fuel + 1) st =
        some (.parseError "Invalid inline data value" st.lineNo st.current))
    ∧ (∀ (l : String) (t : List String), st.rest = l :: t →
        startsWithSemi l = true →
        validateFrom (fuel + 1) st =
          (match validateSemicolonDataItem ⟨l, t, st.lineNo + 1⟩ with
            | .error o => some o
            | .ok st2 => validateFrom fuel st2))
    ∧ (∀ (l : String) (t : List String), st.rest = l :: t →
        startsWithSemi l = false →
        validateFrom (fuel + 1) st =
          some (.parseError "Invalid inline data value" st.lineNo st.current)) := by
  obtain ⟨cur, rest, n⟩ := st
  simp only at h1 h2 h3 h4
  refine ⟨?_, ?_, ?_⟩
  · rintro rfl
    simp [validateFrom, h1, h2, h3, h4, validateLoneDataName, nextLineV]
  · rintro l t rfl hsemi
    simp [validateFrom, h1, h2, h3, h4, validateLoneDataName, nextLineV, hsemi]
  · rintro l t rfl hsemi
    simp [validateFrom, h1, h2, h3, h4, validateLoneDataName, nextLineV, hsemi]

/-- Witness for C5: the three dispatch outcomes at concrete inputs. -/
theorem lone_data_name_dispatch_witness :
    (validateFrom 1 ⟨"_name", [], 7⟩ =
        some (.parseError "Invalid inline data value" 7 "_name"))
    ∧ (validateFrom 2 ⟨"_name", [";", "txt a", "txt b", ";"], 1⟩ =
        (match validateSemicolonDataItem ⟨";", ["txt a", "txt b", ";"], 2⟩ with
          | .error o => some o
          | .ok st2 => validateFrom 1 st2))
    ∧ (validateFrom 1 ⟨"_name", ["oops", "x"], 3⟩ =
        some (.parseError "Invalid inline data value" 3 "_name")) :=
  ⟨(lone_data_name_dispatch 0 ⟨"_name", [], 7⟩ rfl rfl rfl rfl).1 rfl,
   (lone_data_name_dispatch 1 ⟨"_name", [";", "txt a", "txt b", ";"], 1⟩
      rfl rfl rfl rfl).2.1 ";" ["txt a", "txt b", ";"] rfl rfl,
   (lone_data_name_dispatch 0 ⟨"_name", ["oops", "x"], 3⟩
      rfl rfl rfl rfl).2.2 "oops" ["x"] rfl rfl⟩

/-- C7 counterexample: the claim states that any non-comment, non-blank
row of a loop whose `DATA_VALUE` tokenization has a length different
from the declared name count raises `Unmatched data values to data
names in loop` at that row.  The line `_x` inside the value region of a
two-column loop is non-comment and non-blank and tokenizes into one
value, yet the validator exits the loop instead and ends up raising
`Invalid inline data value` for the line. -/
theorem loop_row_terminating_name_cex :
    validateCif 20 "loop_\n_a\n_b\n1 2\n_x\n3" =
        some (.parseError "Invalid inline data value" 5 "_x")
    ∧ "Invalid inline data value" ≠ "Unmatched data values to data names in loop" :=
  ⟨rfl, by decide⟩

/-- C7 (amended): while validating the value rows of a loop with the
collected data names, a non-comment row that the validator treats as a
value row (`_is_loop_data_values`: it matches `DATA_VALUE` and is
neither a loop marker nor a heading) and whose tokenization count
differs from the declared name count raises `Unmatched data values to
data names in loop` at that row's line; other non-matching rows
terminate the loop instead. -/
theorem unmatched_loop_row_error (names : List String) (cur : String)
    (rest : List String) (n : Nat)
    (h1 : commentOrBlank cur = false)
    (h2 : isLoopDataValues cur = true)
    (h3 : (dvFindAll cur).length ≠ names.length) :
    loopValuesScan names cur rest n =
      .error (.parseError "Unmatched data values to data names in loop" n cur) := by
  cases rest <;> simp [loopValuesScan, h1, h2, h3]

/-- Witness for C7's amended theorem: a one-token row in a two-name
loop is reported at its own line. -/
theorem unmatched_loop_row_error_witness :
    loopValuesScan ["a", "b"] "value_A1" ["x y"] 5 =
      .error (.parseError "Unmatched data values to data names in loop" 5 "value_A1") :=
  unmatched_loop_row_error ["a", "b"] "value_A1" ["x y"] 5 rfl rfl (by decide)

/-- C2 counterexample: the claim states that after the three extraction
passes a block's `raw_data` is empty for every well-formed input.  On
the well-formed input below the loop text survives all three passes, so
the final `raw_data` is not empty. -/
theorem extract_loop_keeps_raw_data_cex :
    (parseCif "data_b\n_a 1\nloop_\n_x\n5").map DataBlock.raw_data =
        ["\nloop_\n_x\n5"]
    ∧ ("\nloop_\n_x\n5" : String) ≠ "" :=
  ⟨rfl, by decide⟩

/-- C2 (amended): the semicolon and inline passes do remove their
matched spans, but `extract_loop_data_items` leaves `raw_data`
unchanged, so after all three passes the block body equals whatever the
first two passes left behind — in particular it still holds the loop
text (as on the concrete well-formed input below) rather than being
empty. -/
theorem loop_pass_preserves_raw_data :
    (∀ b : DataBlock, (extract_loop_data_items b).raw_data = b.raw_data)
    ∧ (parseCif "data_b\n_a 1\nloop_\n_x\n5").map DataBlock.raw_data =
        ["\nloop_\n_x\n5"] :=
  ⟨fun _ => rfl, rfl⟩

/-- C3 counterexample: the claim states that whenever a bare data-name
line reveals an unclosed semicolon text field, the raised error carries
the last content line of the field.  With only one content line before
the bare name the two-line lookback deque holds a single entry and
`previous_lines[1]` raises an `IndexError` instead of the described
`CIFParseError`. -/
theorem unclosed_field_short_lookback_cex :
    validateCif 10 "_a\n;\nx\n_b" = some .indexError := rfl

/-- C3 (amended): the `Unclosed semicolon text field` error carries the
line number and text of the last content line of the field — in the
end-of-input case whenever the field has at least one content line, and
in the bare-name (non-content, non-closing next line) case whenever the
field has at least two content lines.  (With no content line the
end-of-input case silently validates, and with fewer than two content
lines the bare-name case raises an `IndexError`; see C9.) -/
theorem unclosed_field_error_attribution (sline c : String) (cs : List String)
    (n : Nat) (hc : contentLine c = true)
    (hcs : ∀ l ∈ cs, contentLine l = true) :
    (validateSemicolonDataItem ⟨sline, c :: cs, n⟩ =
        .error (.parseError "Unclosed semicolon text field"
          (n + 1 + cs.length) (cs.getLastD c)))
    ∧ (∀ (b : String) (rest2 : List String),
        contentLine b = false → startsWithSemi b = false → cs ≠ [] →
        validateSemicolonDataItem ⟨sline, c :: (cs ++ b :: rest2), n⟩ =
          .error (.parseError "Unclosed semicolon text field"
            (n + 1 + cs.length) (cs.getLastD c))) := by
  constructor
  · have h1 : validateSemicolonDataItem ⟨sline, c :: cs, n⟩ =
        semiFieldScan [] c cs (n + 1) := rfl
    rw [h1, semiFieldScan_contentRun cs [] c (n + 1) hc hcs]
  · intro b rest2 hb hbs hne
    have h1 : validateSemicolonDataItem ⟨sline, c :: (cs ++ b :: rest2), n⟩ =
        semiFieldScan [] c (cs ++ b :: rest2) (n + 1) := rfl
    rw [h1, semiFieldScan_breakRun cs [] c b rest2 (n + 1) hc hcs hb hbs hne]

/-- Witness for C3's amended theorem: with two content lines the error
is attributed to the second one, both at end of input and at a bare
data-name line. -/
theorem unclosed_field_error_attribution_witness :
    (validateSemicolonDataItem ⟨";", ["# note", "field text"], 2⟩ =
        .error (.parseError "Unclosed semicolon text field" 4 "field text"))
    ∧ (validateSemicolonDataItem ⟨";", ["# note", "field text", "_next", "x"], 2⟩ =
        .error (.parseError "Unclosed semicolon text field" 4 "field text")) :=
  ⟨(unclosed_field_error_attribution ";" "# note" ["field text"] 2 rfl
      (by decide)).1,
   (unclosed_field_error_attribution ";" "# note" ["field text"] 2 rfl
      (by decide)).2 "_next" ["x"] rfl rfl (by decide)⟩

/-- C8 counterexample: the claim states that quoted scalar values are
treated by one single quote-preservation rule identical for the three
extraction passes.  The same quoted token stored once through the
semicolon pass and once through the inline pass yields different
strings: the semicolon pass wraps its capture in an extra pair of
single quotes while the inline pass stores the token verbatim. -/
theorem quote_treatment_differs_cex :
    (parseCif ("data_b\n_q\n;\n" ++ squoteS ++ "v" ++ squoteS ++ "\n;\n_r "
        ++ squoteS ++ "v" ++ squoteS)).map DataBlock.data_items =
      [[("q", .scalar (squoteS ++ (squoteS ++ "v" ++ squoteS) ++ squoteS)),
        ("r", .scalar (squoteS ++ "v" ++ squoteS))]]
    ∧ squoteS ++ (squoteS ++ "v" ++ squoteS) ++ squoteS ≠
        squoteS ++ "v" ++ squoteS :=
  ⟨rfl, by decide⟩

/-- C8 (amended): the inline pass and the loop pass share one rule —
the captured token is stored exactly as written, quotes included — while
the semicolon pass follows a different rule, wrapping its captured
content in an additional pair of single quotes; so the treatment is
uniform between the inline and loop passes but differs for the
semicolon pass. -/
theorem quote_treatment_by_pass :
    (∀ (d : List (String × CifValue)) (n v : String),
        dictLookup (dictInsert d n (.scalar (patTransform .inlinePat v))) n =
          some (.scalar v))
    ∧ (∀ (d : List (String × CifValue)) (n v : String),
        dictLookup (dictInsert d n (.scalar (patTransform .semicolonPat v))) n =
          some (.scalar (squoteS ++ v ++ squoteS)))
    ∧ (∀ (t : List (String × List String)) (n v : String) (col : List String),
        (t.map Prod.fst).Nodup → (n, col) ∈ t →
          (n, col ++ [v]) ∈ tableAppend t n v)
    ∧ patTransform .semicolonPat (squoteS ++ "v" ++ squoteS) ≠
        patTransform .inlinePat (squoteS ++ "v" ++ squoteS) := by
  refine ⟨fun d n v => dictLookup_insert_self d n (.scalar v),
    fun d n v => dictLookup_insert_self d n (.scalar (squoteS ++ v ++ squoteS)),
    ?_, by decide⟩
  intro t n v col
  induction t with
  | nil => intro _ hmem; cases hmem
  | cons p r ih =>
    intro hnd hmem
    rw [List.map_cons, List.nodup_cons] at hnd
    rcases List.mem_cons.mp hmem with heq | hmem2
    · subst heq
      simp [tableAppend]
    · have hp : p.1 ≠ n := by
        intro he
        exact hnd.1 (he ▸ List.mem_map_of_mem Prod.fst hmem2)
      rw [tableAppend_cons_ne p r n v hp]
      exact List.mem_cons_of_mem p (ih hnd.2 hmem2)

/-- Witness for C8's amended theorem: a loop cell append stores the
token verbatim in its column. -/
theorem quote_treatment_by_pass_witness :
    ("c1", ["x", "v"]) ∈ tableAppend [("c1", ["x"]), ("c2", ["y"])] "c1" "v" :=
  quote_treatment_by_pass.2.2.1 [("c1", ["x"]), ("c2", ["y"])] "c1" "v" ["x"]
    (by decide) (by decide)

/-- C10 counterexample: the claim states that `load_cif` raises
`CIFParseError` on every syntactically invalid input.  The input below
contains an unclosed semicolon text field (a fault in the supported
error taxonomy), yet the validator run by `CIFParser.__init__` lets an
`IndexError` escape instead of a `CIFParseError`. -/
theorem load_cif_index_error_cex :
    load_cif 10 "_z\n;\n_y" = some (.inl .indexError) := rfl

/-- C10 (amended): `load_cif` always runs the complete validator before
any block splitting or extraction: parse output is only produced when
validation succeeds, and whenever validation raises `CIFParseError`
that same error escapes from `load_cif` with no parse output — but some
malformed inputs instead escape with an `IndexError` (and one class of
inputs does not terminate), so not every invalid input yields a
`CIFParseError`. -/
theorem load_cif_validates_before_extraction :
    (∀ (fuel : Nat) (raw : String)
        (out : List (String × List (String × CifValue))),
        load_cif fuel raw = some (.inr out) → validateCif fuel raw = some .ok)
    ∧ (∀ (fuel : Nat) (raw : String) (msg : String) (k : Nat) (l : String),
        validateCif fuel raw = some (.parseError msg k l) →
          load_cif fuel raw = some (.inl (.parseError msg k l))) := by
  constructor
  · intro fuel raw out h
    unfold load_cif at h
    cases hv : validateCif fuel raw with
    | none => rw [hv] at h; cases h
    | some o =>
      rw [hv] at h
      cases o with
      | ok => rfl
      | parseError m k l => simp at h
      | indexError => simp at h
  · intro fuel raw msg k l h
    unfold load_cif
    rw [h]

/-- Witness for C10's amended theorem: a successfully loaded file was
validated, and a validator error surfaces unchanged from `load_cif`. -/
theorem load_cif_validates_before_extraction_witness :
    validateCif 5 "# a comment" = some .ok
    ∧ load_cif 5 "lone_value" =
        some (.inl (.parseError "Missing inline data name" 1 "lone_value")) :=
  ⟨load_cif_validates_before_extraction.1 5 "# a comment" [] rfl,
   load_cif_validates_before_extraction.2 5 "lone_value"
     "Missing inline data name" 1 "lone_value" rfl⟩

/-- C4: for a loop whose split-off text declares distinct names (as a
well-formed loop does) and whose remaining lines each tokenize into
exactly as many `DATA_VALUE` captures as there are names, the table
stored under the ordinal key `loop_i` (1-based order of appearance, the
ordinal keys being pairwise distinct) has exactly one column per
declared name, in declaration order, and every column has exactly one
entry per value row. -/
theorem loop_extraction_table_shape (b : DataBlock) (i : Nat) (loopText : String)
    (hload : ((loopSplit b.raw_data).drop 1).get? i = some loopText)
    (hkeys : ((((loopSplit b.raw_data).drop 1).enum.map
        (fun q => "loop_" ++ toString (q.1 + 1))).Nodup))
    (hnd : (dnslFindAll loopText).Nodup)
    (hrows : ∀ l ∈ (splitLines loopText).drop (dnslFindAll loopText).length,
        (dvFindAll l).length = (dnslFindAll loopText).length) :
    dictLookup (extract_loop_data_items b).data_items
        ("loop_" ++ toString (i + 1)) =
      some (.table (buildLoopTable loopText))
    ∧ (buildLoopTable loopText).map Prod.fst = dnslFindAll loopText
    ∧ ∀ p ∈ buildLoopTable loopText,
        p.2.length =
          ((splitLines loopText).drop (dnslFindAll loopText).length).length := by
  refine ⟨?_, (buildLoopTable_shape loopText hnd hrows).1,
    (buildLoopTable_shape loopText hnd hrows).2⟩
  have hfold : (extract_loop_data_items b).data_items =
      (((loopSplit b.raw_data).drop 1).enum.map
        (fun q => ("loop_" ++ toString (q.1 + 1),
          CifValue.table (buildLoopTable q.2)))).foldl
        (fun d p => dictInsert d p.1 p.2) b.data_items := by
    rw [List.foldl_map]
    rfl
  rw [hfold]
  apply dictLookup_foldl_insert
  · have hcomp : (Prod.fst ∘ fun q : Nat × String =>
        ("loop_" ++ toString (q.1 + 1), CifValue.table (buildLoopTable q.2))) =
        (fun q : Nat × String => "loop_" ++ toString (q.1 + 1)) := rfl
    rw [List.map_map, hcomp]
    exact hkeys
  · have hmem : (i, loopText) ∈ ((loopSplit b.raw_data).drop 1).enum := by
      rw [List.mk_mem_enum_iff_getElem?, ← List.get?_eq_getElem?]
      exact hload
    exact List.mem_map_of_mem _ hmem

/-- Witness for C4: a one-loop block with two columns and two rows. -/
theorem loop_extraction_table_shape_witness :
    dictLookup (extract_loop_data_items
        ⟨"data_h", "loop_\n_c1\n_c2\nv1 v2\nw1 w2", []⟩).data_items "loop_1" =
      some (.table [("c1", ["v1", "w1"]), ("c2", ["v2", "w2"])]) :=
  (loop_extraction_table_shape ⟨"data_h", "loop_\n_c1\n_c2\nv1 v2\nw1 w2", []⟩
    0 "_c1\n_c2\nv1 v2\nw1 w2" rfl (by decide) (by decide) (by decide)).1

end DiffractionCif
